import Mathlib

/-!
Shallow embedding of the pipeline design-pattern notebook
(`src/pipeline.ipynb`): the `TextObject` record, the `LanguageDetector`
and `SentimentDetector` processors, and the `Pipeline` runner.

The two external collaborators (langdetect's `detect_langs` and
textblob's polarity) are opaque libraries; they are modelled as explicit
function parameters `det : String → List Candidate` and
`pol : String → Rat`.

The Python method `Pipeline.run` reads the free (global) name
`processors` in its inner loop, not `self.processors`; the embedding
keeps that faithfully as an explicit ambient parameter `env` that is
distinct from the pipeline's own `processors` field.
-/

namespace PipelinePattern

/-- A `(language_code, confidence)` candidate as returned by the
language-identification collaborator (langdetect's `Language` value with
its `lang` and `prob` attributes). -/
structure Candidate where
  lang : String
  prob : Rat
deriving DecidableEq

/-- The record type: the `TextObject` dataclass with required `text` and
fields `language` and `sentiment` defaulting to `None`. -/
structure TextObject where
  text : String
  language : Option String
  sentiment : Option Rat
deriving DecidableEq

/-- Construction of a record by the caller: `TextObject(text)` with the
dataclass defaults `language = None`, `sentiment = None`. -/
def TextObject.ofText (t : String) : TextObject :=
  ⟨t, none, none⟩

/-- The comparison key of `sorted(detected_languages, key=lambda x: x.prob,
reverse=True)`: `a` comes before `b` when `a` has the larger confidence. -/
def byProbDesc (a b : Candidate) : Prop :=
  b.prob ≤ a.prob

instance : DecidableRel byProbDesc :=
  fun a b => inferInstanceAs (Decidable (b.prob ≤ a.prob))

instance : IsTotal Candidate byProbDesc :=
  ⟨fun a b => (le_total b.prob a.prob)⟩

instance : IsTrans Candidate byProbDesc :=
  ⟨fun _ _ _ hab hbc => le_trans hbc hab⟩

/-- `LanguageDetector.process`: fetch the candidates for `text_object.text`;
if there is at least one, write the `lang` of the head of the list sorted
by descending confidence into `text_object.language`.  Python's `sorted`
with `reverse=True` is a stable sort; it is modelled by `insertionSort`
on `byProbDesc`. -/
def LanguageDetector.process (det : String → List Candidate) (r : TextObject) :
    TextObject :=
  if 0 < (det r.text).length then
    match ((det r.text).insertionSort byProbDesc).head? with
    | some c => ⟨r.text, some c.lang, r.sentiment⟩
    | none => r
  else r

/-- `LanguageDetector.process` with the `[0]` indexing of the sorted list
modelled as a fallible operation: `none` is the `IndexError` case. -/
def LanguageDetector.processE (det : String → List Candidate) (r : TextObject) :
    Option TextObject :=
  if 0 < (det r.text).length then
    match ((det r.text).insertionSort byProbDesc).head? with
    | some c => some ⟨r.text, some c.lang, r.sentiment⟩
    | none => none
  else some r

/-- `SentimentDetector.process`: when `text_object.language == 'en'`, write
the collaborator's polarity score for `text_object.text` into
`text_object.sentiment`; otherwise do nothing. -/
def SentimentDetector.process (pol : String → Rat) (r : TextObject) :
    TextObject :=
  if r.language = some "en" then ⟨r.text, r.language, some (pol r.text)⟩
  else r

/-- The two concrete `Processor` subclasses of the notebook. -/
inductive Processor where
  | languageDetector
  | sentimentDetector
deriving DecidableEq

/-- Dynamic dispatch of `processor.process(text)` over the concrete
processor variants. -/
def Processor.process (det : String → List Candidate) (pol : String → Rat) :
    Processor → TextObject → TextObject
  | .languageDetector, r => LanguageDetector.process det r
  | .sentimentDetector, r => SentimentDetector.process pol r

/-- Dispatch of the fallible model (`SentimentDetector.process` contains no
fallible operation, so it is always `some`). -/
def Processor.processE (det : String → List Candidate) (pol : String → Rat) :
    Processor → TextObject → Option TextObject
  | .languageDetector, r => LanguageDetector.processE det r
  | .sentimentDetector, r => some (SentimentDetector.process pol r)

/-- The `Pipeline` dataclass: an ordered list of processors fixed at
construction. -/
structure Pipeline where
  processors : List Processor

/-- The inner loop of `Pipeline.run`: `for processor in processors:
processor.process(text)`, folding the ambient processor list over one
record. -/
def processAll (det : String → List Candidate) (pol : String → Rat)
    (env : List Processor) (r : TextObject) : TextObject :=
  env.foldl (fun t p => Processor.process det pol p t) r

/-- `Pipeline.run(texts)`: for each text, for each processor in the free
variable `processors`, apply `process`.  The body names the global
`processors`, not `self.processors`, so the list iterated is the ambient
`env` and the field `self.processors` is never read. -/
def Pipeline.run (det : String → List Candidate) (pol : String → Rat)
    (env : List Processor) (_self : Pipeline) (texts : List TextObject) :
    List TextObject :=
  texts.map (processAll det pol env)

/-! ### Concrete collaborators used by witnesses and counterexamples -/

/-- A collaborator that always detects English with full confidence. -/
def detEn : String → List Candidate := fun _ => [⟨"en", 1⟩]

/-- A collaborator that returns zero candidates. -/
def detNone : String → List Candidate := fun _ => []

/-- A collaborator returning two candidates with distinct confidences. -/
def detTwo : String → List Candidate := fun _ => [⟨"de", 1 / 4⟩, ⟨"en", 3 / 4⟩]

/-- A polarity collaborator returning the constant score `1/2`. -/
def polHalf : String → Rat := fun _ => 1 / 2

/-! ### Frame lemmas of the single-processor steps -/

theorem langDet_text_eq (det : String → List Candidate)
    (r : TextObject) : (LanguageDetector.process det r).text = r.text := by
  unfold LanguageDetector.process
  split
  · split <;> rfl
  · rfl

theorem LanguageDetector.sentiment_eq (det : String → List Candidate)
    (r : TextObject) :
    (LanguageDetector.process det r).sentiment = r.sentiment := by
  unfold LanguageDetector.process
  split
  · split <;> rfl
  · rfl

theorem sentDet_text_eq (pol : String → Rat) (r : TextObject) :
    (SentimentDetector.process pol r).text = r.text := by
  unfold SentimentDetector.process
  split <;> rfl

theorem SentimentDetector.language_eq (pol : String → Rat) (r : TextObject) :
    (SentimentDetector.process pol r).language = r.language := by
  unfold SentimentDetector.process
  split <;> rfl

theorem step_text_eq (det : String → List Candidate) (pol : String → Rat)
    (p : Processor) (r : TextObject) :
    (Processor.process det pol p r).text = r.text := by
  cases p
  · exact langDet_text_eq det r
  · exact sentDet_text_eq pol r

theorem processAll_text_eq (det : String → List Candidate)
    (pol : String → Rat) (env : List Processor) (r : TextObject) :
    (processAll det pol env r).text = r.text := by
  induction env generalizing r with
  | nil => rfl
  | cons p tl ih =>
    show (processAll det pol tl (Processor.process det pol p r)).text = r.text
    rw [ih, step_text_eq]

/-! ### Claim theorems -/

/-- C3: `SentimentDetector.process` writes the polarity collaborator's
score for the record's text into `sentiment` exactly when the record's
language equals `"en"`; for any other language value, including unset, it
leaves the record untouched (in particular an unset `sentiment` stays
unset) and the result does not depend on the sentiment collaborator at
all (no external call is made). -/
theorem spec_C3 (pol : String → Rat) (r : TextObject) :
    (r.language = some "en" →
      SentimentDetector.process pol r = ⟨r.text, r.language, some (pol r.text)⟩) ∧
    (r.language ≠ some "en" →
      SentimentDetector.process pol r = r ∧
      ∀ pol' : String → Rat,
        SentimentDetector.process pol' r = SentimentDetector.process pol r) := by
  constructor
  · intro h
    unfold SentimentDetector.process
    rw [if_pos h]
  · intro h
    have hr : SentimentDetector.process pol r = r := by
      unfold SentimentDetector.process
      rw [if_neg h]
    refine ⟨hr, fun pol' => ?_⟩
    rw [hr]
    unfold SentimentDetector.process
    rw [if_neg h]

theorem spec_C3_witness :
    SentimentDetector.process polHalf ⟨"hi", some "en", none⟩ =
      ⟨"hi", some "en", some (polHalf "hi")⟩ :=
  (spec_C3 polHalf ⟨"hi", some "en", none⟩).1 rfl

/-- C7: a record constructed by the caller (`TextObject(text)`) has
`language` and `sentiment` unset, and every processor invocation is
monotone on set-ness: a set `language` or `sentiment` is never reset to
unset by any processor. -/
theorem spec_C7 (det : String → List Candidate) (pol : String → Rat)
    (t : String) (p : Processor) (r : TextObject) :
    ((TextObject.ofText t).language = none ∧
      (TextObject.ofText t).sentiment = none) ∧
    (r.language.isSome → (Processor.process det pol p r).language.isSome) ∧
    (r.sentiment.isSome → (Processor.process det pol p r).sentiment.isSome) := by
  refine ⟨⟨rfl, rfl⟩, ?_, ?_⟩
  · intro h
    cases p
    · show (LanguageDetector.process det r).language.isSome
      unfold LanguageDetector.process
      split
      · split
        · simp
        · exact h
      · exact h
    · show (SentimentDetector.process pol r).language.isSome
      rw [SentimentDetector.language_eq]
      exact h
  · intro h
    cases p
    · show (LanguageDetector.process det r).sentiment.isSome
      rw [LanguageDetector.sentiment_eq]
      exact h
    · show (SentimentDetector.process pol r).sentiment.isSome
      unfold SentimentDetector.process
      split
      · simp
      · exact h

theorem spec_C7_witness :
    (Processor.process detEn polHalf Processor.sentimentDetector
        ⟨"hi", some "en", some 1⟩).language.isSome :=
  (spec_C7 detEn polHalf "hi" Processor.sentimentDetector
      ⟨"hi", some "en", some 1⟩).2.1 rfl

/-- C8: no processor invocation and no pipeline run ever modifies the
`text` field: after any processing, each record's `text` equals the text
it was constructed with. -/
theorem spec_C8 (det : String → List Candidate) (pol : String → Rat)
    (env : List Processor) (self : Pipeline) (texts : List TextObject)
    (p : Processor) (r : TextObject) :
    (Processor.process det pol p r).text = r.text ∧
    (Pipeline.run det pol env self texts).map TextObject.text =
      texts.map TextObject.text := by
  refine ⟨step_text_eq det pol p r, ?_⟩
  unfold Pipeline.run
  rw [List.map_map]
  exact List.map_congr_left fun r _ => processAll_text_eq det pol env r

/-- C9: `Pipeline.run` neither reorders, drops, nor adds records: the
output sequence has the same length as the input and its `i`-th element
is exactly the `i`-th input record (mutated in place by the processors
applied to it). -/
theorem spec_C9 (det : String → List Candidate) (pol : String → Rat)
    (env : List Processor) (self : Pipeline) (texts : List TextObject)
    (i : Nat) :
    (Pipeline.run det pol env self texts).length = texts.length ∧
    (Pipeline.run det pol env self texts)[i]? =
      (texts[i]?).map (processAll det pol env) := by
  constructor
  · exact List.length_map texts (processAll det pol env)
  · exact List.getElem?_map (processAll det pol env) texts i

/-- The head of the list sorted by descending confidence is a member of
the original list and attains the maximal confidence. -/
theorem head_sorted_max (l : List Candidate) (c : Candidate)
    (h : (l.insertionSort byProbDesc).head? = some c) :
    c ∈ l ∧ ∀ x ∈ l, x.prob ≤ c.prob := by
  have hperm := List.perm_insertionSort byProbDesc l
  have hsort := List.sorted_insertionSort byProbDesc l
  cases hs : l.insertionSort byProbDesc with
  | nil =>
    rw [hs] at h
    exact absurd h (by simp)
  | cons a tl =>
    rw [hs] at h hperm hsort
    have hac : a = c := by simpa using h
    subst hac
    refine ⟨hperm.subset (List.mem_cons_self a tl), fun x hx => ?_⟩
    have hx' : x ∈ a :: tl := (hperm.mem_iff).mpr hx
    rcases List.mem_cons.mp hx' with hxa | hxtl
    · exact le_of_eq (by rw [hxa])
    · exact List.rel_of_sorted_cons hsort x hxtl

/-- C4: for a record with non-empty text and unset language,
`LanguageDetector.process` leaves `language` unset when the collaborator
returns zero candidates, and otherwise writes the language code of a
candidate of maximal confidence among the returned candidates. -/
theorem spec_C4 (det : String → List Candidate) (r : TextObject)
    (_htext : r.text ≠ "") (hlang : r.language = none) :
    (det r.text = [] → (LanguageDetector.process det r).language = none) ∧
    (det r.text ≠ [] → ∃ c ∈ det r.text,
      (LanguageDetector.process det r).language = some c.lang ∧
      ∀ x ∈ det r.text, x.prob ≤ c.prob) := by
  constructor
  · intro hdet
    unfold LanguageDetector.process
    rw [if_neg (by rw [hdet]; exact (lt_irrefl 0))]
    exact hlang
  · intro hdet
    have hlen : 0 < (det r.text).length := List.length_pos.mpr hdet
    have hslen : 0 < ((det r.text).insertionSort byProbDesc).length := by
      rw [List.length_insertionSort]
      exact hlen
    obtain ⟨c, hc⟩ : ∃ c, ((det r.text).insertionSort byProbDesc).head? = some c := by
      cases hh : ((det r.text).insertionSort byProbDesc).head? with
      | none =>
        rw [List.head?_eq_none_iff] at hh
        rw [hh] at hslen
        exact absurd hslen (by simp)
      | some c => exact ⟨c, rfl⟩
    obtain ⟨hmem, hmax⟩ := head_sorted_max (det r.text) c hc
    refine ⟨c, hmem, ?_, hmax⟩
    unfold LanguageDetector.process
    rw [if_pos hlen, hc]

theorem spec_C4_witness :
    ∃ c ∈ detTwo "hi",
      (LanguageDetector.process detTwo ⟨"hi", none, none⟩).language = some c.lang ∧
      ∀ x ∈ detTwo "hi", x.prob ≤ c.prob :=
  (spec_C4 detTwo ⟨"hi", none, none⟩ (by decide) rfl).2 (by decide)

/-- C5: each processor's `process` is total: in the model where the
`[0]` indexing of the sorted candidate list may fail (`processE`), it
always returns `some` of the `process` result (the indexing is guarded by
the emptiness check, and `SentimentDetector.process` contains no fallible
operation); and on a malformed record such as one with empty text, for
which the collaborator yields no candidates, the unset fields simply stay
unset: `process` returns the record unchanged instead of erroring. -/
theorem spec_C5 (det : String → List Candidate) (pol : String → Rat)
    (p : Processor) (r : TextObject) :
    Processor.processE det pol p r = some (Processor.process det pol p r) ∧
    (r.text = "" → det r.text = [] → r.language = none →
      Processor.process det pol p r = r) := by
  constructor
  · cases p
    · show LanguageDetector.processE det r = some (LanguageDetector.process det r)
      unfold LanguageDetector.processE LanguageDetector.process
      split
      · rename_i hlen
        have hslen : 0 < ((det r.text).insertionSort byProbDesc).length := by
          rw [List.length_insertionSort]
          exact hlen
        cases hh : ((det r.text).insertionSort byProbDesc).head? with
        | none =>
          rw [List.head?_eq_none_iff] at hh
          rw [hh] at hslen
          exact absurd hslen (by simp)
        | some c => rfl
      · rfl
    · rfl
  · intro _ hdet hlang
    cases p
    · show LanguageDetector.process det r = r
      unfold LanguageDetector.process
      rw [if_neg (by rw [hdet]; exact (lt_irrefl 0))]
    · show SentimentDetector.process pol r = r
      unfold SentimentDetector.process
      rw [if_neg (by rw [hlang]; exact fun h => Option.noConfusion h)]

theorem spec_C5_witness :
    Processor.process detNone polHalf Processor.languageDetector
        ⟨"", none, none⟩ = ⟨"", none, none⟩ :=
  (spec_C5 detNone polHalf Processor.languageDetector
      ⟨"", none, none⟩).2 rfl rfl rfl

/-- C1 (bug evaluation): `Pipeline.run` iterates the ambient free
variable `processors`, not the pipeline's own `processors` field.  A
pipeline constructed with the empty processor sequence, run while the
ambient list holds a `LanguageDetector`, still gets its record's
`language` written — the pipeline's own (empty) sequence is ignored. -/
theorem spec_C1_bug :
    Pipeline.run detEn polHalf [Processor.languageDetector] ⟨[]⟩
        [⟨"hi", none, none⟩] = [⟨"hi", some "en", none⟩] ∧
    ∀ self self' : Pipeline, ∀ texts : List TextObject,
      Pipeline.run detEn polHalf [Processor.languageDetector] self texts =
        Pipeline.run detEn polHalf [Processor.languageDetector] self' texts := by
  exact ⟨by decide, fun _ _ _ => rfl⟩

/-- C2 (bug evaluation): running a pipeline that was constructed with an
empty processor sequence does not leave the records unchanged when the
ambient `processors` list is non-empty. -/
theorem spec_C2_bug :
    Pipeline.run detEn polHalf [Processor.languageDetector] ⟨[]⟩
        [⟨"hi", none, none⟩] ≠ [⟨"hi", none, none⟩] := by
  decide

/-! ### Idempotence of a run -/

/-- The candidate a `LanguageDetector` run would select for a text: the
head of the candidate list sorted by descending confidence. -/
def topCand (det : String → List Candidate) (t : String) : Option Candidate :=
  ((det t).insertionSort byProbDesc).head?

/-- The record's `language` already agrees with what a run of
`LanguageDetector` would write. -/
def LangFixed (det : String → List Candidate) (r : TextObject) : Prop :=
  ∀ c, topCand det r.text = some c → r.language = some c.lang

/-- The record's `sentiment` already agrees with what a run of
`SentimentDetector` would write. -/
def SentFixed (pol : String → Rat) (r : TextObject) : Prop :=
  r.language = some "en" → r.sentiment = some (pol r.text)

theorem topCand_none (det : String → List Candidate) (t : String)
    (h : topCand det t = none) : det t = [] := by
  unfold topCand at h
  rw [List.head?_eq_none_iff] at h
  have hlen := List.length_insertionSort byProbDesc (det t)
  rw [h] at hlen
  exact List.length_eq_zero.mp hlen.symm

theorem process_of_topCand_some (det : String → List Candidate)
    (r : TextObject) (c : Candidate) (h : topCand det r.text = some c) :
    LanguageDetector.process det r = ⟨r.text, some c.lang, r.sentiment⟩ := by
  have hne : det r.text ≠ [] := by
    intro h0
    unfold topCand at h
    rw [h0] at h
    exact absurd h (by simp [List.insertionSort])
  unfold LanguageDetector.process
  rw [if_pos (List.length_pos.mpr hne)]
  unfold topCand at h
  rw [h]

theorem process_of_topCand_none (det : String → List Candidate)
    (r : TextObject) (h : topCand det r.text = none) :
    LanguageDetector.process det r = r := by
  have h0 := topCand_none det r.text h
  unfold LanguageDetector.process
  rw [if_neg (by rw [h0]; exact lt_irrefl 0)]

theorem langFixed_L (det : String → List Candidate) (r : TextObject) :
    LangFixed det (LanguageDetector.process det r) := by
  intro c hc
  rw [langDet_text_eq] at hc
  rw [process_of_topCand_some det r c hc]

theorem L_fix_of_langFixed (det : String → List Candidate) (r : TextObject)
    (h : LangFixed det r) : LanguageDetector.process det r = r := by
  cases hc : topCand det r.text with
  | none => exact process_of_topCand_none det r hc
  | some c =>
    rw [process_of_topCand_some det r c hc]
    have h1 := h c hc
    cases r with
    | mk t lang s =>
      have h2 : lang = some c.lang := h1
      rw [h2]

theorem S_fix_of_sentFixed (pol : String → Rat) (r : TextObject)
    (h : SentFixed pol r) : SentimentDetector.process pol r = r := by
  by_cases hen : r.language = some "en"
  · have h1 := h hen
    unfold SentimentDetector.process
    rw [if_pos hen]
    cases r with
    | mk t lang s =>
      have h2 : s = some (pol t) := h1
      rw [h2]
  · unfold SentimentDetector.process
    rw [if_neg hen]

theorem sentFixed_S (pol : String → Rat) (r : TextObject) :
    SentFixed pol (SentimentDetector.process pol r) := by
  intro hen
  rw [sentDet_text_eq]
  rw [SentimentDetector.language_eq] at hen
  unfold SentimentDetector.process
  rw [if_pos hen]

theorem langFixed_step (det : String → List Candidate) (pol : String → Rat)
    (p : Processor) (r : TextObject) (h : LangFixed det r) :
    LangFixed det (Processor.process det pol p r) := by
  cases p
  · show LangFixed det (LanguageDetector.process det r)
    rw [L_fix_of_langFixed det r h]
    exact h
  · show LangFixed det (SentimentDetector.process pol r)
    intro c hc
    rw [sentDet_text_eq] at hc
    rw [SentimentDetector.language_eq]
    exact h c hc

theorem processAll_cons (det : String → List Candidate) (pol : String → Rat)
    (p : Processor) (tl : List Processor) (r : TextObject) :
    processAll det pol (p :: tl) r =
      processAll det pol tl (Processor.process det pol p r) :=
  rfl

theorem langFixed_processAll (det : String → List Candidate)
    (pol : String → Rat) (env : List Processor) (r : TextObject)
    (h : LangFixed det r) : LangFixed det (processAll det pol env r) := by
  induction env generalizing r with
  | nil => exact h
  | cons p tl ih =>
    rw [processAll_cons]
    exact ih (Processor.process det pol p r) (langFixed_step det pol p r h)

theorem processAll_fix (det : String → List Candidate) (pol : String → Rat)
    (env : List Processor) (r : TextObject) (hL : LangFixed det r) :
    (Processor.sentimentDetector ∈ env → SentFixed pol r) →
    processAll det pol env r = r := by
  induction env with
  | nil => intro _; rfl
  | cons p tl ih =>
    intro hS
    have hstep : Processor.process det pol p r = r := by
      cases p
      · exact L_fix_of_langFixed det r hL
      · exact S_fix_of_sentFixed pol r (hS (List.mem_cons_self _ _))
    rw [processAll_cons, hstep]
    exact ih fun hmem => hS (List.mem_cons_of_mem p hmem)

theorem processAll_allL (det : String → List Candidate) (pol : String → Rat)
    (env : List Processor) (r : TextObject) (hL : LangFixed det r) :
    (∀ q ∈ env, q = Processor.languageDetector) →
    processAll det pol env r = r := by
  induction env with
  | nil => intro _; rfl
  | cons p tl ih =>
    intro hall
    have hp : p = Processor.languageDetector := hall p (List.mem_cons_self _ _)
    subst hp
    have hstep : Processor.process det pol Processor.languageDetector r = r :=
      L_fix_of_langFixed det r hL
    rw [processAll_cons, hstep]
    exact ih fun q hq => hall q (List.mem_cons_of_mem _ hq)

theorem sentFixed_processAll (det : String → List Candidate)
    (pol : String → Rat) (env : List Processor) (r : TextObject)
    (hL : LangFixed det r) :
    Processor.sentimentDetector ∈ env →
    SentFixed pol (processAll det pol env r) := by
  induction env generalizing r with
  | nil => intro h; exact absurd h (List.not_mem_nil _)
  | cons p tl ih =>
    intro hmem
    by_cases hmemtl : Processor.sentimentDetector ∈ tl
    · rw [processAll_cons]
      exact ih (Processor.process det pol p r) (langFixed_step det pol p r hL) hmemtl
    · have hp : p = Processor.sentimentDetector := by
        rcases List.mem_cons.mp hmem with h1 | h1
        · exact h1.symm
        · exact absurd h1 hmemtl
      subst hp
      rw [processAll_cons]
      show SentFixed pol (processAll det pol tl (SentimentDetector.process pol r))
      have hL' : LangFixed det (SentimentDetector.process pol r) :=
        langFixed_step det pol Processor.sentimentDetector r hL
      have hall : ∀ q ∈ tl, q = Processor.languageDetector := by
        intro q hq
        cases q
        · rfl
        · exact absurd hq hmemtl
      rw [processAll_allL det pol tl _ hL' hall]
      exact sentFixed_S pol r

/-- Applying the ambient processor list twice to one record equals
applying it once, provided the list is empty or starts with a
`LanguageDetector` (equivalently: every `SentimentDetector` in the list
is preceded by a `LanguageDetector`). -/
theorem processAll_idem (det : String → List Candidate) (pol : String → Rat)
    (env : List Processor) (r : TextObject)
    (horder : env = [] ∨ env.head? = some Processor.languageDetector) :
    processAll det pol env (processAll det pol env r) =
      processAll det pol env r := by
  cases env with
  | nil => rfl
  | cons p tl =>
    have hp : p = Processor.languageDetector := by
      rcases horder with h | h
      · exact absurd h (by simp)
      · simpa using h
    subst hp
    apply processAll_fix
    · exact langFixed_processAll det pol tl _ (langFixed_L det r)
    · intro hmem
      have hmemtl : Processor.sentimentDetector ∈ tl := by
        rcases List.mem_cons.mp hmem with h1 | h1
        · exact Processor.noConfusion h1
        · exact h1
      exact sentFixed_processAll det pol tl _ (langFixed_L det r) hmemtl

/-- C6 (amended): with deterministic collaborators, running
`Pipeline.run` twice on the same records yields the same final field
values as running it once, provided every `SentimentDetector` in the
iterated processor sequence is preceded by a `LanguageDetector`
(equivalently: the sequence is empty or begins with a
`LanguageDetector`, as the notebook's pipeline does). -/
theorem spec_C6 (det : String → List Candidate) (pol : String → Rat)
    (env : List Processor) (self : Pipeline) (texts : List TextObject)
    (horder : env = [] ∨ env.head? = some Processor.languageDetector) :
    Pipeline.run det pol env self (Pipeline.run det pol env self texts) =
      Pipeline.run det pol env self texts := by
  unfold Pipeline.run
  rw [List.map_map]
  exact List.map_congr_left fun r _ => processAll_idem det pol env r horder

theorem spec_C6_witness :
    Pipeline.run detEn polHalf
        [Processor.languageDetector, Processor.sentimentDetector]
        ⟨[Processor.languageDetector, Processor.sentimentDetector]⟩
        (Pipeline.run detEn polHalf
          [Processor.languageDetector, Processor.sentimentDetector]
          ⟨[Processor.languageDetector, Processor.sentimentDetector]⟩
          [⟨"hi", none, none⟩]) =
      Pipeline.run detEn polHalf
        [Processor.languageDetector, Processor.sentimentDetector]
        ⟨[Processor.languageDetector, Processor.sentimentDetector]⟩
        [⟨"hi", none, none⟩] :=
  spec_C6 detEn polHalf
    [Processor.languageDetector, Processor.sentimentDetector]
    ⟨[Processor.languageDetector, Processor.sentimentDetector]⟩
    [⟨"hi", none, none⟩] (Or.inr rfl)

/-- C6 (counterexample): for the processor order
`[SentimentDetector, LanguageDetector]` the claim fails: the first run
only writes `language`, so the second run's `SentimentDetector` sees
`"en"` and additionally writes `sentiment` — running twice differs from
running once. -/
theorem spec_C6_counterexample :
    Pipeline.run detEn polHalf
        [Processor.sentimentDetector, Processor.languageDetector]
        ⟨[Processor.sentimentDetector, Processor.languageDetector]⟩
        (Pipeline.run detEn polHalf
          [Processor.sentimentDetector, Processor.languageDetector]
          ⟨[Processor.sentimentDetector, Processor.languageDetector]⟩
          [⟨"hi", none, none⟩]) ≠
      Pipeline.run detEn polHalf
        [Processor.sentimentDetector, Processor.languageDetector]
        ⟨[Processor.sentimentDetector, Processor.languageDetector]⟩
        [⟨"hi", none, none⟩] := by
  decide

/-! ### Execution order of the nested loops -/

/-- The inner loop of `Pipeline.run` instrumented with an invocation
log: processing record number `i`, each processor application appends
the event `(i, processor)` in the order the loop performs it. -/
def runRecordTrace (det : String → List Candidate) (pol : String → Rat)
    (i : Nat) : List Processor → TextObject → TextObject × List (Nat × Processor)
  | [], t => (t, [])
  | p :: ps, t =>
    let rest := runRecordTrace det pol i ps (Processor.process det pol p t)
    (rest.1, (i, p) :: rest.2)

/-- The outer loop of `Pipeline.run` instrumented with the invocation
log, starting at record number `i`. -/
def runTraceAux (det : String → List Candidate) (pol : String → Rat)
    (env : List Processor) (i : Nat) :
    List TextObject → List TextObject × List (Nat × Processor)
  | [] => ([], [])
  | t :: ts =>
    let first := runRecordTrace det pol i env t
    let rest := runTraceAux det pol env (i + 1) ts
    (first.1 :: rest.1, first.2 ++ rest.2)

/-- `Pipeline.run` instrumented with its chronological invocation log:
each event `(i, p)` records that processor `p` was invoked on record
number `i`. -/
def Pipeline.runTrace (det : String → List Candidate) (pol : String → Rat)
    (env : List Processor) (texts : List TextObject) :
    List TextObject × List (Nat × Processor) :=
  runTraceAux det pol env 0 texts

theorem runRecordTrace_fst (det : String → List Candidate)
    (pol : String → Rat) (i : Nat) (env : List Processor) (t : TextObject) :
    (runRecordTrace det pol i env t).1 = processAll det pol env t := by
  induction env generalizing t with
  | nil => rfl
  | cons p ps ih =>
    show (runRecordTrace det pol i ps (Processor.process det pol p t)).1 =
      processAll det pol (p :: ps) t
    rw [processAll_cons]
    exact ih (Processor.process det pol p t)

theorem runRecordTrace_snd (det : String → List Candidate)
    (pol : String → Rat) (i : Nat) (env : List Processor) (t : TextObject) :
    (runRecordTrace det pol i env t).2 = env.map (fun p => (i, p)) := by
  induction env generalizing t with
  | nil => rfl
  | cons p ps ih =>
    show (i, p) :: (runRecordTrace det pol i ps (Processor.process det pol p t)).2 =
      (p :: ps).map (fun p => (i, p))
    rw [List.map_cons, ih (Processor.process det pol p t)]

theorem runTraceAux_fst (det : String → List Candidate) (pol : String → Rat)
    (env : List Processor) (i : Nat) (texts : List TextObject) :
    (runTraceAux det pol env i texts).1 = texts.map (processAll det pol env) := by
  induction texts generalizing i with
  | nil => rfl
  | cons t ts ih =>
    show (runRecordTrace det pol i env t).1 :: (runTraceAux det pol env (i + 1) ts).1 =
      (t :: ts).map (processAll det pol env)
    rw [List.map_cons, runRecordTrace_fst, ih (i + 1)]

theorem flatMap_range_succ (n : Nat) (f : Nat → List (Nat × Processor)) :
    (List.range (n + 1)).flatMap f =
      f 0 ++ (List.range n).flatMap fun j => f (j + 1) := by
  rw [List.range_succ_eq_map, List.flatMap_cons, List.flatMap_map]

theorem runTraceAux_snd (det : String → List Candidate) (pol : String → Rat)
    (env : List Processor) (i : Nat) (texts : List TextObject) :
    (runTraceAux det pol env i texts).2 =
      (List.range texts.length).flatMap fun j => env.map fun p => (i + j, p) := by
  induction texts generalizing i with
  | nil => rfl
  | cons t ts ih =>
    show (runRecordTrace det pol i env t).2 ++ (runTraceAux det pol env (i + 1) ts).2 =
      (List.range (ts.length + 1)).flatMap fun j => env.map fun p => (i + j, p)
    rw [runRecordTrace_snd, ih (i + 1), flatMap_range_succ]
    have h1 : (fun j => env.map fun p => (i + 1 + j, p)) =
        fun j : Nat => env.map fun p => (i + (j + 1), p) := by
      funext j
      have hj : i + 1 + j = i + (j + 1) := by omega
      rw [hj]
    rw [h1]
    rfl

/-- C10: the instrumented run shows `Pipeline.run` is record-major: its
invocation log is exactly, in chronological order, all processors (in
pipeline order) applied to record 0, then all applied to record 1, and
so on — every processor hits record `i` before any processor hits
record `i + 1` — and the instrumented records agree with
`Pipeline.run`. -/
theorem spec_C10 (det : String → List Candidate) (pol : String → Rat)
    (env : List Processor) (self : Pipeline) (texts : List TextObject) :
    (Pipeline.runTrace det pol env texts).2 =
      ((List.range texts.length).flatMap fun i => env.map fun p => (i, p)) ∧
    (Pipeline.runTrace det pol env texts).1 =
      Pipeline.run det pol env self texts := by
  constructor
  · unfold Pipeline.runTrace
    rw [runTraceAux_snd]
    have h0 : (fun j => env.map fun p => (0 + j, p)) =
        fun j : Nat => env.map fun p => (j, p) := by
      funext j
      rw [Nat.zero_add]
    rw [h0]
  · unfold Pipeline.runTrace Pipeline.run
    exact runTraceAux_fst det pol env 0 texts

end PipelinePattern
